import Mathlib

/-!
Verification of `foxy::async_read_body`.

A shallow embedding of `include/foxy/async_read_body.hpp`: the composed
operation `foxy::detail::read_body_op` (a stackless `boost::asio::coroutine`)
and its initiating function `foxy::async_read_body`.

The coroutine body is embedded as a step function, one call of
`read_body_op::operator()` per step.  Calls the body makes on its
collaborators (executor, timer, stream, buffer, completion handler) are
recorded as a list of `effect`s, in program order.  What the collaborators do
between a `yield` and the matching resumption (the octets the read commits to
the buffer, the parser state after the read fed it) is an input of the step.
-/

namespace foxy

/-! ## Collaborator types -/

/-- Values of `boost::system::error_code` the operation is resumed with.
`success` is the default constructed code, for which `if (ec)` is false;
`end_of_stream` is `boost::beast::http::error::end_of_stream`. -/
inductive error_code where
  | success
  | end_of_stream
  | connection_reset
  | timed_out
  | bad_chunk
  | other (value : Nat)
deriving DecidableEq, Repr

/-- The contextual conversion `if (ec)`: true for every code but the default. -/
def error_code.failed : error_code → Bool
  | .success => false
  | _ => true

/-- An Asio executor, identified by a number. -/
structure executor where
  id : Nat
deriving DecidableEq, Repr

/-- The message `http::request<Body, http::basic_fields<Allocator>>`: header
fields and the body octets. -/
structure request where
  fields : List (String × String)
  body : List Char
deriving DecidableEq, Repr

/-- The default constructed message `http::request<Body, basic_fields<Allocator>>()`. -/
def request.empty : request := { fields := [], body := [] }

/-- What `read_body_op` uses of `http::request_parser<Body, Allocator>`:
`is_done()` and `release()`. -/
class output_parser_type (P : Type) where
  is_done : P → Bool
  release : P → request

/-- The `SteadyTimer`: its expiry, a point of the steady clock. -/
structure steady_timer where
  expiry : Nat
deriving DecidableEq, Repr

/-- The call `timer.expires_after(d)` made when the clock reads `now`. -/
def steady_timer.expires_after (_t : steady_timer) (now d : Nat) : steady_timer :=
  { expiry := now + d }

/-- The `AsyncReadStream`, as far as the operation looks at it: its executor. -/
structure async_read_stream where
  ex : executor
deriving DecidableEq, Repr

/-- The completion handler, as far as the operation looks at it: the executor
associated with it, when it has one. -/
structure completion_handler where
  associated : Option executor
deriving DecidableEq, Repr

/-- The function `boost::asio::get_associated_executor(handler, fallback)`. -/
def get_associated_executor (h : completion_handler) (fallback : executor) : executor :=
  match h.associated with
  | some e => e
  | none => fallback

/-- A call the coroutine body makes on one of its collaborators. -/
inductive effect where
  | post (ex : executor)
  | expires_after (seconds : Nat)
  | async_read_some
  | consume (n : Nat)
  | invoke (ec : error_code) (msg : request)
deriving DecidableEq, Repr

/-! ## The operation -/

/-- The resume point stored in the `boost::asio::coroutine` base: not yet
entered, suspended at the `yield` of line 144 (`asio::post`), suspended at the
`yield` of line 154 (`http::async_read_some`), or complete. -/
inductive coroutine where
  | initial
  | posted
  | reading
  | complete
deriving DecidableEq, Repr

/-- The nested `read_body_op::state`. -/
structure state (P : Type) where
  stream : async_read_stream
  buffer : List Char
  timer : steady_timer
  parser : P

/-- The operation `foxy::detail::read_body_op`: the coroutine base and
`p_`, the handler together with the state. -/
structure read_body_op (P : Type) where
  coro : coroutine
  handler : completion_handler
  p : state P

variable {P : Type} [output_parser_type P]

/-- The member `read_body_op::get_executor`. -/
def read_body_op.get_executor (op : read_body_op P) : executor :=
  get_associated_executor op.handler op.p.stream.ex

/-- The call `p.buffer.consume(n)` of a dynamic buffer. -/
def consume (buffer : List Char) (n : Nat) : List Char :=
  buffer.drop n

/-- The body of `operator()` from the head of the `while` loop (line 146) to
the next `yield` or to the end of the coroutine. -/
def read_body_op.loop (op : read_body_op P) (now : Nat) (ec : error_code) :
    read_body_op P × List effect :=
  if !output_parser_type.is_done op.p.parser then
    if ec.failed then
      ({ op with coro := .complete }, [.invoke ec request.empty])
    else
      ({ op with
          coro := .reading,
          p := { op.p with timer := op.p.timer.expires_after now 30 } },
        [.expires_after 30, .async_read_some])
  else if ec.failed && ec != .end_of_stream then
    ({ op with coro := .complete }, [.invoke ec request.empty])
  else
    ({ op with coro := .complete },
      [.invoke .success (output_parser_type.release op.p.parser)])

/-- The member `read_body_op::operator()(ec, bytes_transferred)`, entered when
the steady clock reads `now`: `reenter` jumps to the stored resume point. -/
def read_body_op.operator (op : read_body_op P) (now : Nat)
    (ec : error_code) (bytes_transferred : Nat) : read_body_op P × List effect :=
  match op.coro with
  | .complete => (op, [])
  | .initial => ({ op with coro := .posted }, [.post op.get_executor])
  | .posted => op.loop now ec
  | .reading =>
    let op1 : read_body_op P :=
      { op with p := { op.p with buffer := consume op.p.buffer bytes_transferred } }
    let r := op1.loop now ec
    (r.1, .consume bytes_transferred :: r.2)

/-- The function `foxy::async_read_body`: builds the operation and calls it
with the default arguments. -/
def async_read_body (stream : async_read_stream) (buffer : List Char)
    (timer : steady_timer) (parser : P) (handler : completion_handler) (now : Nat) :
    read_body_op P × List effect :=
  read_body_op.operator
    { coro := .initial, handler := handler,
      p := { stream := stream, buffer := buffer, timer := timer, parser := parser } }
    now .success 0

/-! ## The collaborators between a `yield` and the resumption -/

/-- What `http::async_read_some(p.stream, p.buffer, p.parser, op)` has done
when it resumes the operation: the reading of the steady clock, the two
arguments it passes to `operator()`, the octets it committed to the buffer and
the parser after it fed it. -/
structure read_result (P : Type) where
  now : Nat
  ec : error_code
  bytes_transferred : Nat
  arrived : List Char
  parser : P

/-- The pending `http::async_read_some` completes with `r` and resumes the
operation. -/
def read_body_op.complete_read (op : read_body_op P) (r : read_result P) :
    read_body_op P × List effect :=
  read_body_op.operator
    { op with p := { op.p with buffer := op.p.buffer ++ r.arrived, parser := r.parser } }
    r.now r.ec r.bytes_transferred

/-- The reads of a run complete with the given results, in order.  A result
is delivered only while a read is pending; once no read is pending nothing
resumes the operation again. -/
def read_body_op.feed (op : read_body_op P) :
    List (read_result P) → read_body_op P × List effect
  | [] => (op, [])
  | r :: rs =>
    if op.coro = .reading then
      let s := op.complete_read r
      let t := read_body_op.feed s.1 rs
      (t.1, s.2 ++ t.2)
    else (op, [])

/-- A run of the operation: the initiating call at time `t0`, the resumption
posted by it at time `t1` (with the default arguments), then the reads
completing with `rs`.  The result is the final operation and every call made
on a collaborator, in order. -/
def run (h : completion_handler) (p : state P) (t0 t1 : Nat) (rs : List (read_result P)) :
    read_body_op P × List effect :=
  let a : read_body_op P × List effect :=
    async_read_body p.stream p.buffer p.timer p.parser h t0
  let b := a.1.operator t1 .success 0
  let c := b.1.feed rs
  (c.1, a.2 ++ (b.2 ++ c.2))

/-- The state the operation sees when a read has completed with `r` and the
body has called `consume`. -/
def read_body_op.after_read (op : read_body_op P) (r : read_result P) : read_body_op P :=
  { op with
      p := { op.p with
              buffer := consume (op.p.buffer ++ r.arrived) r.bytes_transferred,
              parser := r.parser } }

/-- A read result that ends the run: the read failed or the parser reports
completion after it. -/
def read_result.stops (r : read_result P) : Bool :=
  r.ec.failed || output_parser_type.is_done r.parser

/-! ## Observations on a trace -/

/-- Is the call an invocation of the continuation? -/
def effect.is_invoke : effect → Bool
  | .invoke _ _ => true
  | _ => false

/-- Is the call a partial read? -/
def effect.is_read : effect → Bool
  | .async_read_some => true
  | _ => false

/-- Is the call an arming of the timer? -/
def effect.is_arm : effect → Bool
  | .expires_after _ => true
  | _ => false

/-- The octets a call removes from the buffer. -/
def effect.consumed : effect → Nat
  | .consume n => n
  | _ => 0

/-- How often the continuation is invoked in a trace. -/
def invocations (tr : List effect) : Nat := tr.countP effect.is_invoke

/-- How many partial reads a trace issues. -/
def reads (tr : List effect) : Nat := tr.countP effect.is_read

/-- How often a trace arms the timer. -/
def arms (tr : List effect) : Nat := tr.countP effect.is_arm

/-- The octets a trace removes from the buffer, in total. -/
def consumed (tr : List effect) : Nat := (tr.map effect.consumed).sum

/-- Every arming in the trace is `expires_after(30)` and is directly followed
by a partial read, and every partial read directly follows an arming. -/
def arm_then_read : List effect → Bool
  | [] => true
  | .expires_after d :: .async_read_some :: tr => d == 30 && arm_then_read tr
  | .expires_after _ :: _ => false
  | .async_read_some :: _ => false
  | _ :: tr => arm_then_read tr

/-! ## A parser and a transport for the scenarios -/

/-- Modelled from the spec: the Message Parser Adapter, absent from the
sources (`boost::beast::http::request_parser`).  It holds the header fields of
the completed header parse; the body is framed by a content length or is
close-delimited (`content_length = none`). -/
structure parser_adapter where
  fields : List (String × String)
  content_length : Option Nat
  body : List Char
deriving DecidableEq, Repr

/-- Modelled from the spec: the `is_done()` of the Message Parser Adapter,
absent from the sources.  A body with a content length is complete when that
many octets were fed; a close-delimited body never reports completion by
itself. -/
def parser_adapter.is_done (p : parser_adapter) : Bool :=
  match p.content_length with
  | some n => decide (n ≤ p.body.length)
  | none => false

/-- Modelled from the spec: the `release()` of the Message Parser Adapter,
absent from the sources: the message with the octets fed so far as body. -/
def parser_adapter.release (p : parser_adapter) : request :=
  { fields := p.fields, body := p.body }

/-- Modelled from the spec: the `feed(bytes) -> consumed` of the Message
Parser Adapter, absent from the sources.  The parser takes the octets that
still belong to the body and reports how many it took. -/
def parser_adapter.put (p : parser_adapter) (octets : List Char) : parser_adapter × Nat :=
  match p.content_length with
  | some n =>
    let k := min (n - p.body.length) octets.length
    ({ p with body := p.body ++ octets.take k }, k)
  | none => ({ p with body := p.body ++ octets }, octets.length)

instance : output_parser_type parser_adapter where
  is_done := parser_adapter.is_done
  release := parser_adapter.release

/-- Modelled from the spec: a partial read of the transport that succeeds,
absent from the sources (`boost::beast::http::async_read_some`).  The octets
received are committed to the buffer, the parser is fed the buffer, and the
number of octets the parser took is passed on as `bytes_transferred`. -/
def read_some (now : Nat) (p : parser_adapter) (buffer octets : List Char) :
    read_result parser_adapter :=
  let r := p.put (buffer ++ octets)
  { now := now, ec := .success, bytes_transferred := r.2, arrived := octets, parser := r.1 }

/-- The peer sends `octets`, which reach the transport when the clock reads
`time`. -/
structure delivery where
  time : Nat
  octets : List Char
deriving DecidableEq, Repr

/-- Modelled from the spec: the transport capability of section 6, absent from
the sources.  A read issued at time `issued` is pending until the next
delivery; when the expiry of the shared timer passes before the octets arrive
the transport fails the read with a timeout at the expiry, otherwise the read
succeeds when the octets arrive. -/
def transport_read (timer : steady_timer) (issued : Nat) (p : parser_adapter)
    (buffer : List Char) (d : delivery) : read_result parser_adapter :=
  if timer.expiry < d.time then
    { now := timer.expiry, ec := .timed_out, bytes_transferred := 0, arrived := [], parser := p }
  else read_some (max issued d.time) p buffer d.octets

/-- The reads of a run complete as the transport decides, given the
deliveries of the peer; `issued` is the time the pending read was issued. -/
def read_body_op.drive (op : read_body_op parser_adapter) (issued : Nat) :
    List delivery → read_body_op parser_adapter × List effect
  | [] => (op, [])
  | d :: ds =>
    if op.coro = .reading then
      let r := transport_read op.p.timer issued op.p.parser op.p.buffer d
      let s := op.complete_read r
      let t := read_body_op.drive s.1 r.now ds
      (t.1, s.2 ++ t.2)
    else (op, [])

/-- A run of the operation against the transport: the initiating call and the
posted resumption at time `t0`, then the reads completing as the transport
decides. -/
def run_against (h : completion_handler) (p : state parser_adapter) (t0 : Nat)
    (ds : List delivery) : read_body_op parser_adapter × List effect :=
  let a : read_body_op parser_adapter × List effect :=
    async_read_body p.stream p.buffer p.timer p.parser h t0
  let b := a.1.operator t0 .success 0
  let c := b.1.drive t0 ds
  (c.1, a.2 ++ (b.2 ++ c.2))

/-- A peer that delivers one octet every 29 time units after `start`, `n` times. -/
def steady_peer (start : Nat) : Nat → List delivery
  | 0 => []
  | n + 1 => { time := start + 29, octets := ['x'] } :: steady_peer (start + 29) n

/-- A peer that is silent for 31 time units after `start` and then delivers. -/
def silent_peer (start : Nat) (octets : List Char) : List delivery :=
  [{ time := start + 31, octets := octets }]

/-! ## Scenarios -/

/-- A request whose header announced `Content-Length: 11`; the header parse
is complete, no body octet was fed yet. -/
def hello_state : state parser_adapter :=
  { stream := { ex := { id := 1 } }, buffer := [], timer := { expiry := 0 },
    parser := { fields := [("Content-Length", "11")], content_length := some 11, body := [] } }

/-- A request with a close-delimited body; the header parse is complete. -/
def close_state : state parser_adapter :=
  { stream := { ex := { id := 1 } }, buffer := [], timer := { expiry := 0 },
    parser := { fields := [], content_length := none, body := [] } }

/-- A request without a body: the parser reports completion from the start. -/
def empty_state : state parser_adapter :=
  { stream := { ex := { id := 1 } }, buffer := ['G', 'E', 'T'], timer := { expiry := 7 },
    parser := { fields := [("Content-Length", "0")], content_length := some 0, body := [] } }

/-- The first read of the `hello world` scenario delivers six octets. -/
def hello_1 : read_result parser_adapter :=
  read_some 1 hello_state.parser [] ['h', 'e', 'l', 'l', 'o', ' ']

/-- The second read of the `hello world` scenario delivers five octets. -/
def hello_2 : read_result parser_adapter :=
  read_some 2 hello_1.parser [] ['w', 'o', 'r', 'l', 'd']

/-- The last five octets arrive and complete the body, and the read resumes
with a connection reset. -/
def hello_2_reset : read_result parser_adapter :=
  { hello_2 with ec := .connection_reset }

/-- The last five octets arrive and complete the body, and the read resumes
with end-of-stream. -/
def hello_2_eos : read_result parser_adapter :=
  { hello_2 with ec := .end_of_stream }

/-- The read of the close-delimited scenario that delivers `abc`. -/
def abc_read : read_result parser_adapter :=
  read_some 1 close_state.parser [] ['a', 'b', 'c']

/-- The read after `abc` resumes with end-of-stream; the parser was fed
nothing more. -/
def abc_eos : read_result parser_adapter :=
  { now := 2, ec := .end_of_stream, bytes_transferred := 0, arrived := [],
    parser := abc_read.parser }

/-- The read after `abc` resumes with a connection reset. -/
def abc_reset : read_result parser_adapter :=
  { now := 2, ec := .connection_reset, bytes_transferred := 0, arrived := [],
    parser := abc_read.parser }

/-- A handler without an associated executor. -/
def plain_handler : completion_handler := { associated := none }

/-- A handler bound to a strand. -/
def strand_handler : completion_handler := { associated := some { id := 9 } }

/-! ## One resumption -/

section steps

variable {P : Type} [output_parser_type P]

theorem loop_continue (op : read_body_op P) (now : Nat) (ec : error_code)
    (hd : output_parser_type.is_done op.p.parser = false) (he : ec.failed = false) :
    op.loop now ec =
      ({ op with coro := .reading, p := { op.p with timer := { expiry := now + 30 } } },
        [.expires_after 30, .async_read_some]) := by
  simp [read_body_op.loop, hd, he, steady_timer.expires_after]

theorem loop_failed (op : read_body_op P) (now : Nat) (ec : error_code)
    (hd : output_parser_type.is_done op.p.parser = false) (he : ec.failed = true) :
    op.loop now ec = ({ op with coro := .complete }, [.invoke ec request.empty]) := by
  simp [read_body_op.loop, hd, he]

theorem loop_done_error (op : read_body_op P) (now : Nat) (ec : error_code)
    (hd : output_parser_type.is_done op.p.parser = true) (he : ec.failed = true)
    (hne : ec ≠ .end_of_stream) :
    op.loop now ec = ({ op with coro := .complete }, [.invoke ec request.empty]) := by
  simp [read_body_op.loop, hd, he, hne]

theorem loop_done_success (op : read_body_op P) (now : Nat) (ec : error_code)
    (hd : output_parser_type.is_done op.p.parser = true)
    (he : ec.failed = false ∨ ec = .end_of_stream) :
    op.loop now ec =
      ({ op with coro := .complete },
        [.invoke .success (output_parser_type.release op.p.parser)]) := by
  rcases he with he | he <;> simp [read_body_op.loop, hd, he]

theorem complete_read_eq (op : read_body_op P) (r : read_result P)
    (h : op.coro = .reading) :
    op.complete_read r =
      (((op.after_read r).loop r.now r.ec).1,
        .consume r.bytes_transferred :: ((op.after_read r).loop r.now r.ec).2) := by
  simp [read_body_op.complete_read, read_body_op.operator, h, read_body_op.after_read]

theorem complete_read_continue (op : read_body_op P) (r : read_result P)
    (h : op.coro = .reading)
    (hd : output_parser_type.is_done r.parser = false) (he : r.ec.failed = false) :
    op.complete_read r =
      ({ op.after_read r with
          coro := .reading,
          p := { (op.after_read r).p with timer := { expiry := r.now + 30 } } },
        [.consume r.bytes_transferred, .expires_after 30, .async_read_some]) := by
  rw [complete_read_eq op r h, loop_continue _ _ _ (by simpa [read_body_op.after_read] using hd) he]

theorem complete_read_failed (op : read_body_op P) (r : read_result P)
    (h : op.coro = .reading) (he : r.ec.failed = true) (hne : r.ec ≠ .end_of_stream) :
    op.complete_read r =
      ({ op.after_read r with coro := .complete },
        [.consume r.bytes_transferred, .invoke r.ec request.empty]) := by
  rw [complete_read_eq op r h]
  cases hd : output_parser_type.is_done r.parser
  · rw [loop_failed _ _ _ (by simpa [read_body_op.after_read] using hd) he]
  · rw [loop_done_error _ _ _ (by simpa [read_body_op.after_read] using hd) he hne]

theorem complete_read_eos_open (op : read_body_op P) (r : read_result P)
    (h : op.coro = .reading) (he : r.ec = .end_of_stream)
    (hd : output_parser_type.is_done r.parser = false) :
    op.complete_read r =
      ({ op.after_read r with coro := .complete },
        [.consume r.bytes_transferred, .invoke .end_of_stream request.empty]) := by
  rw [complete_read_eq op r h,
    loop_failed _ _ _ (by simpa [read_body_op.after_read] using hd) (by rw [he]; rfl), he]

theorem complete_read_done (op : read_body_op P) (r : read_result P)
    (h : op.coro = .reading) (hd : output_parser_type.is_done r.parser = true)
    (he : r.ec.failed = false ∨ r.ec = .end_of_stream) :
    op.complete_read r =
      ({ op.after_read r with coro := .complete },
        [.consume r.bytes_transferred, .invoke .success (output_parser_type.release r.parser)]) := by
  rw [complete_read_eq op r h,
    loop_done_success _ _ _ (by simpa [read_body_op.after_read] using hd) he]
  simp [read_body_op.after_read]

theorem complete_read_stops (op : read_body_op P) (r : read_result P)
    (h : op.coro = .reading) (hs : r.stops = true) :
    (op.complete_read r).1.coro = .complete ∧
      ∃ ec m, (op.complete_read r).2 = [.consume r.bytes_transferred, .invoke ec m] := by
  cases hd : output_parser_type.is_done r.parser
  · have he : r.ec.failed = true := by simpa [read_result.stops, hd] using hs
    rw [complete_read_eq op r h, loop_failed _ _ _ (by simpa [read_body_op.after_read] using hd) he]
    exact ⟨rfl, _, _, rfl⟩
  · cases he : r.ec.failed
    · rw [complete_read_done op r h hd (Or.inl he)]
      exact ⟨rfl, _, _, rfl⟩
    · by_cases hne : r.ec = .end_of_stream
      · rw [complete_read_done op r h hd (Or.inr hne)]
        exact ⟨rfl, _, _, rfl⟩
      · rw [complete_read_failed op r h he hne]
        exact ⟨rfl, _, _, rfl⟩

theorem complete_read_goes_on (op : read_body_op P) (r : read_result P)
    (h : op.coro = .reading) (hs : r.stops = false) :
    (op.complete_read r).1.coro = .reading ∧
      (op.complete_read r).2 =
        [.consume r.bytes_transferred, .expires_after 30, .async_read_some] := by
  have hd : output_parser_type.is_done r.parser = false := by
    cases hd : output_parser_type.is_done r.parser <;> simp_all [read_result.stops]
  have he : r.ec.failed = false := by
    cases he : r.ec.failed <;> simp_all [read_result.stops]
  rw [complete_read_continue op r h hd he]
  exact ⟨rfl, rfl⟩

theorem feed_cons_reading (op : read_body_op P) (r : read_result P)
    (rs : List (read_result P)) (h : op.coro = .reading) :
    op.feed (r :: rs) =
      (((op.complete_read r).1.feed rs).1,
        (op.complete_read r).2 ++ ((op.complete_read r).1.feed rs).2) := by
  simp [read_body_op.feed, h]

theorem feed_idle (op : read_body_op P) (rs : List (read_result P))
    (h : op.coro ≠ .reading) : op.feed rs = (op, []) := by
  cases rs <;> simp [read_body_op.feed, h]

end steps

/-! ## Traces of a run -/

section traces

variable {P : Type} [output_parser_type P]

theorem invocations_quiet (q : List effect) (hq : ∀ e ∈ q, e.is_invoke = false) :
    invocations q = 0 := by
  simp only [invocations, List.countP_eq_zero]
  intro e he
  simp [hq e he]

theorem quiet_no_invoke (q pre post : List effect) (e : effect)
    (hq : ∀ x ∈ q, x.is_invoke = false) (h : q = pre ++ e :: post) :
    e.is_invoke = false :=
  hq e (by rw [h]; simp)

theorem invoke_last_of_quiet (q : List effect) (x : effect)
    (hq : ∀ y ∈ q, y.is_invoke = false) :
    ∀ (pre post : List effect) (e : effect),
      q ++ [x] = pre ++ e :: post → e.is_invoke = true → post = [] := by
  induction q with
  | nil =>
    intro pre post e h _
    cases pre with
    | nil => simpa using (List.cons.inj h).2.symm
    | cons a pre => cases pre <;> simp at h
  | cons a q ih =>
    intro pre post e h he
    cases pre with
    | nil =>
      have ha : a = e := (List.cons.inj h).1
      have := hq a (by simp)
      rw [ha, he] at this
      cases this
    | cons b pre =>
      exact ih (fun y hy => hq y (by simp [hy])) pre post e (List.cons.inj h).2 he

/-- The shape of the trace of the reads of a run: calls that are no
invocation, then nothing while a read is pending, or one final invocation. -/
theorem feed_shape (rs : List (read_result P)) :
    ∀ op : read_body_op P, op.coro = .reading →
      ∃ q : List effect, (∀ e ∈ q, e.is_invoke = false) ∧
        (((op.feed rs).1.coro = .reading ∧ (op.feed rs).2 = q) ∨
          ((op.feed rs).1.coro = .complete ∧
            ∃ ec m, (op.feed rs).2 = q ++ [.invoke ec m])) := by
  induction rs with
  | nil =>
    intro op h
    exact ⟨[], by simp, Or.inl ⟨h, rfl⟩⟩
  | cons r rs ih =>
    intro op h
    rw [feed_cons_reading op r rs h]
    cases hs : r.stops
    · obtain ⟨hc, ht⟩ := complete_read_goes_on op r h hs
      obtain ⟨q, hq, hq2⟩ := ih _ hc
      refine ⟨(op.complete_read r).2 ++ q, ?_, ?_⟩
      · intro e he
        rw [ht] at he
        simp only [List.mem_append, List.mem_cons, List.mem_singleton, List.not_mem_nil,
          or_false] at he
        rcases he with (he | he | he) | he
        · rw [he]; rfl
        · rw [he]; rfl
        · rw [he]; rfl
        · exact hq e he
      · rcases hq2 with ⟨h1, h2⟩ | ⟨h1, ec, m, h2⟩
        · exact Or.inl ⟨h1, by simp [h2]⟩
        · exact Or.inr ⟨h1, ec, m, by simp [h2]⟩
    · obtain ⟨hc, ec, m, ht⟩ := complete_read_stops op r h hs
      rw [feed_idle _ rs (by rw [hc]; decide)]
      refine ⟨[.consume r.bytes_transferred], ?_, Or.inr ⟨hc, ec, m, by simp [ht]⟩⟩
      intro e he
      simp only [List.mem_singleton] at he
      rw [he]; rfl

theorem feed_stops (rs : List (read_result P)) :
    ∀ op : read_body_op P, op.coro = .reading → (∃ r ∈ rs, r.stops = true) →
      (op.feed rs).1.coro = .complete := by
  induction rs with
  | nil => intro op _ h; simp at h
  | cons r rs ih =>
    intro op h hex
    rw [feed_cons_reading op r rs h]
    cases hs : r.stops
    · obtain ⟨hc, _⟩ := complete_read_goes_on op r h hs
      refine ih _ hc ?_
      obtain ⟨x, hx, hxs⟩ := hex
      rcases List.mem_cons.1 hx with hx | hx
      · rw [hx, hs] at hxs; cases hxs
      · exact ⟨x, hx, hxs⟩
    · obtain ⟨hc, _⟩ := complete_read_stops op r h hs
      rw [feed_idle _ rs (by rw [hc]; decide)]
      exact hc

/-- The operation a run has built once the posted resumption issued the
first read. -/
theorem run_open (h : completion_handler) (p : state P) (t0 t1 : Nat)
    (rs : List (read_result P)) (hd : output_parser_type.is_done p.parser = false) :
    run h p t0 t1 rs =
      ((read_body_op.feed
          { coro := .reading, handler := h, p := { p with timer := { expiry := t1 + 30 } } }
          rs).1,
        .post (get_associated_executor h p.stream.ex) :: .expires_after 30 ::
          .async_read_some ::
          (read_body_op.feed
            { coro := .reading, handler := h, p := { p with timer := { expiry := t1 + 30 } } }
            rs).2) := by
  simp [run, async_read_body, read_body_op.operator, read_body_op.get_executor,
    read_body_op.loop, hd, error_code.failed, steady_timer.expires_after]

theorem run_done (h : completion_handler) (p : state P) (t0 t1 : Nat)
    (rs : List (read_result P)) (hd : output_parser_type.is_done p.parser = true) :
    run h p t0 t1 rs =
      ({ coro := .complete, handler := h, p := p },
        [.post (get_associated_executor h p.stream.ex),
          .invoke .success (output_parser_type.release p.parser)]) := by
  have hidle : ∀ op : read_body_op P, op.coro = .complete → op.feed rs = (op, []) :=
    fun op hc => feed_idle op rs (by rw [hc]; decide)
  simp [run, async_read_body, read_body_op.operator, read_body_op.get_executor,
    read_body_op.loop, hd, error_code.failed, hidle]

/-- The shape of the trace of a run. -/
theorem run_shape (h : completion_handler) (p : state P) (t0 t1 : Nat)
    (rs : List (read_result P)) :
    ∃ q : List effect, (∀ e ∈ q, e.is_invoke = false) ∧
      (((run h p t0 t1 rs).1.coro = .reading ∧ (run h p t0 t1 rs).2 = q) ∨
        ((run h p t0 t1 rs).1.coro = .complete ∧
          ∃ ec m, (run h p t0 t1 rs).2 = q ++ [.invoke ec m])) := by
  cases hd : output_parser_type.is_done p.parser
  · rw [run_open h p t0 t1 rs hd]
    obtain ⟨q, hq, hq2⟩ := feed_shape rs
      ({ coro := .reading, handler := h, p := { p with timer := { expiry := t1 + 30 } } } :
        read_body_op P) rfl
    refine ⟨.post (get_associated_executor h p.stream.ex) :: .expires_after 30 ::
      .async_read_some :: q, ?_, ?_⟩
    · intro e he
      simp only [List.mem_cons] at he
      rcases he with he | he | he | he
      · rw [he]; rfl
      · rw [he]; rfl
      · rw [he]; rfl
      · exact hq e he
    · rcases hq2 with ⟨h1, h2⟩ | ⟨h1, ec, m, h2⟩
      · exact Or.inl ⟨h1, by simp [h2]⟩
      · exact Or.inr ⟨h1, ec, m, by simp [h2]⟩
  · rw [run_done h p t0 t1 rs hd]
    refine ⟨[.post (get_associated_executor h p.stream.ex)], ?_, Or.inr ⟨rfl, _, _, rfl⟩⟩
    intro e he
    simp only [List.mem_singleton] at he
    rw [he]; rfl

theorem run_stops (h : completion_handler) (p : state P) (t0 t1 : Nat)
    (rs : List (read_result P)) (hex : ∃ r ∈ rs, r.stops = true) :
    (run h p t0 t1 rs).1.coro = .complete := by
  cases hd : output_parser_type.is_done p.parser
  · rw [run_open h p t0 t1 rs hd]
    exact feed_stops rs _ rfl hex
  · rw [run_done h p t0 t1 rs hd]

theorem run_invoked_once (h : completion_handler) (p : state P) (t0 t1 : Nat)
    (rs : List (read_result P)) (hex : ∃ r ∈ rs, r.stops = true) :
    invocations (run h p t0 t1 rs).2 = 1 := by
  obtain ⟨q, hq, hq2⟩ := run_shape h p t0 t1 rs
  have hc := run_stops h p t0 t1 rs hex
  rcases hq2 with ⟨h1, _⟩ | ⟨_, ec, m, h2⟩
  · rw [hc] at h1; cases h1
  · have := invocations_quiet q hq
    simp only [invocations] at this
    rw [h2]
    simp [invocations, List.countP_append, this, effect.is_invoke]

end traces

/-! ## The claims -/

section claims

variable {P : Type} [output_parser_type P]

theorem feed_append (a b : List (read_result P)) :
    ∀ op : read_body_op P,
      op.feed (a ++ b) =
        (((op.feed a).1.feed b).1, (op.feed a).2 ++ ((op.feed a).1.feed b).2) := by
  induction a with
  | nil => intro op; simp [read_body_op.feed]
  | cons r a ih =>
    intro op
    by_cases h : op.coro = .reading
    · rw [List.cons_append, feed_cons_reading op r (a ++ b) h, feed_cons_reading op r a h, ih]
      simp
    · rw [feed_idle op _ h, feed_idle op _ h, feed_idle op _ h]
      simp

theorem run_append_complete (h : completion_handler) (p : state P) (t0 t1 : Nat)
    (rs more : List (read_result P)) (hc : (run h p t0 t1 rs).1.coro = .complete) :
    run h p t0 t1 (rs ++ more) = run h p t0 t1 rs := by
  cases hd : output_parser_type.is_done p.parser
  · rw [run_open h p t0 t1 rs hd] at hc
    rw [run_open h p t0 t1 _ hd, run_open h p t0 t1 rs hd, feed_append,
      feed_idle _ more (by rw [hc]; decide)]
    simp
  · rw [run_done h p t0 t1 _ hd, run_done h p t0 t1 rs hd]

/-- C1. Exactly-once completion.  For every sequence of read results the
continuation is invoked at most once on every prefix of the trace of the run
and on the run over every prefix of the results.  It is invoked exactly once
when some read of the sequence fails or leaves the parser complete.  An
invocation is the last call of the trace: once it happened the coroutine is
complete, further results change nothing, and entering `operator()` again
makes no call at all. -/
theorem exactly_once_completion (h : completion_handler) (p : state P) (t0 t1 : Nat)
    (rs : List (read_result P)) :
    (∀ pre, pre <+: (run h p t0 t1 rs).2 → invocations pre ≤ 1) ∧
    (∀ k, invocations (run h p t0 t1 (rs.take k)).2 ≤ 1) ∧
    ((∃ r ∈ rs, r.ec.failed = true ∨ output_parser_type.is_done r.parser = true) →
      invocations (run h p t0 t1 rs).2 = 1) ∧
    (∀ pre e post, (run h p t0 t1 rs).2 = pre ++ e :: post →
      e.is_invoke = true → post = []) ∧
    (invocations (run h p t0 t1 rs).2 = 1 →
      (run h p t0 t1 rs).1.coro = .complete ∧
      (∀ more, run h p t0 t1 (rs ++ more) = run h p t0 t1 rs) ∧
      ∀ now ec n,
        (run h p t0 t1 rs).1.operator now ec n = ((run h p t0 t1 rs).1, [])) := by
  have count_le : ∀ l : List (read_result P), invocations (run h p t0 t1 l).2 ≤ 1 := by
    intro l
    obtain ⟨q, hq, hq2⟩ := run_shape h p t0 t1 l
    rcases hq2 with ⟨_, h2⟩ | ⟨_, ec, m, h2⟩
    · rw [h2, invocations_quiet q hq]; exact Nat.zero_le 1
    · have := invocations_quiet q hq
      simp only [invocations] at this
      rw [h2]
      simp [invocations, List.countP_append, this, effect.is_invoke]
  obtain ⟨q, hq, hq2⟩ := run_shape h p t0 t1 rs
  refine ⟨?_, fun k => count_le _, ?_, ?_, ?_⟩
  · intro pre hpre
    exact le_trans (List.Sublist.countP_le _ hpre.sublist) (count_le rs)
  · rintro ⟨r, hr, hstop⟩
    have hs : r.stops = true := by
      rcases hstop with hstop | hstop <;> simp [read_result.stops, hstop]
    have hc := run_stops h p t0 t1 rs ⟨r, hr, hs⟩
    rcases hq2 with ⟨h1, _⟩ | ⟨_, ec, m, h2⟩
    · rw [hc] at h1; cases h1
    · have := invocations_quiet q hq
      simp only [invocations] at this
      rw [h2]
      simp [invocations, List.countP_append, this, effect.is_invoke]
  · intro pre e post htr he
    rcases hq2 with ⟨_, h2⟩ | ⟨_, ec, m, h2⟩
    · have := quiet_no_invoke q pre post e hq (h2.symm.trans htr)
      rw [he] at this; cases this
    · exact invoke_last_of_quiet q _ hq pre post e (h2.symm.trans htr) he
  · intro hone
    have hc : (run h p t0 t1 rs).1.coro = .complete := by
      rcases hq2 with ⟨_, h2⟩ | ⟨h1, _⟩
      · rw [h2, invocations_quiet q hq] at hone; cases hone
      · exact h1
    refine ⟨hc, fun more => run_append_complete h p t0 t1 rs more hc, ?_⟩
    intro now ec n
    simp [read_body_op.operator, hc]

/-- C1 at the `hello world` scenario followed by a reset that is never
delivered: one invocation. -/
theorem exactly_once_completion_witness :
    invocations (run plain_handler hello_state 0 0 [hello_1, hello_2, abc_reset]).2 = 1 :=
  (exactly_once_completion plain_handler hello_state 0 0 [hello_1, hello_2, abc_reset]).2.2.1
    ⟨abc_reset, by simp, Or.inl rfl⟩

/-- C2, as the code has it.  A read that resumes with end-of-stream while the
parser does not report completion ends the operation on that resumption with
the end-of-stream error and the default constructed message; it is ended
with no error and the message released from the parser only when the parser
reports completion after that read. -/
theorem end_of_stream_by_parser_state (op : read_body_op P) (r : read_result P)
    (hop : op.coro = .reading) (he : r.ec = .end_of_stream) :
    (op.complete_read r).1.coro = .complete ∧
    (output_parser_type.is_done r.parser = false →
      (op.complete_read r).2 =
        [.consume r.bytes_transferred, .invoke .end_of_stream request.empty]) ∧
    (output_parser_type.is_done r.parser = true →
      (op.complete_read r).2 =
        [.consume r.bytes_transferred,
          .invoke .success (output_parser_type.release r.parser)]) := by
  refine ⟨?_, ?_, ?_⟩
  · cases hd : output_parser_type.is_done r.parser
    · rw [complete_read_eos_open op r hop he hd]
    · rw [complete_read_done op r hop hd (Or.inr he)]
  · intro hd
    rw [complete_read_eos_open op r hop he hd]
  · intro hd
    rw [complete_read_done op r hop hd (Or.inr he)]

/-- C2 at the close-delimited scenario: the read after `abc` resumes with
the end-of-stream error. -/
theorem end_of_stream_by_parser_state_witness :
    ((run plain_handler close_state 0 0 [abc_read]).1.complete_read abc_eos).2 =
      [.consume 0, .invoke .end_of_stream request.empty] :=
  (end_of_stream_by_parser_state (run plain_handler close_state 0 0 [abc_read]).1 abc_eos
    rfl rfl).2.1 rfl

/-- C2 fails on the code: a close-delimited body, the stream delivers `abc`
and then end-of-stream while the parser does not report completion.  The
continuation is invoked with the end-of-stream error and the empty message,
not with no error and the body `abc`. -/
theorem end_of_stream_open_parser_is_error :
    output_parser_type.is_done abc_eos.parser = false ∧
    (output_parser_type.release abc_eos.parser).body = ['a', 'b', 'c'] ∧
    (run plain_handler close_state 0 0 [abc_read, abc_eos]).2 =
      [.post { id := 1 }, .expires_after 30, .async_read_some,
        .consume 3, .expires_after 30, .async_read_some,
        .consume 0, .invoke .end_of_stream request.empty] ∧
    effect.invoke .success (output_parser_type.release abc_eos.parser) ∉
      (run plain_handler close_state 0 0 [abc_read, abc_eos]).2 := by
  decide

/-- C3, as the code has it.  When the parser reports completion after a read,
the continuation is invoked with no error and the released message if that
read resumed with no error or with end-of-stream, and with the error and the
default constructed message if it resumed with any other error. -/
theorem parser_completion_and_error (op : read_body_op P) (r : read_result P)
    (hop : op.coro = .reading) (hd : output_parser_type.is_done r.parser = true) :
    (op.complete_read r).1.coro = .complete ∧
    (r.ec.failed = false ∨ r.ec = .end_of_stream →
      (op.complete_read r).2 =
        [.consume r.bytes_transferred,
          .invoke .success (output_parser_type.release r.parser)]) ∧
    (r.ec.failed = true ∧ r.ec ≠ .end_of_stream →
      (op.complete_read r).2 =
        [.consume r.bytes_transferred, .invoke r.ec request.empty]) := by
  refine ⟨?_, ?_, ?_⟩
  · exact (complete_read_stops op r hop (by simp [read_result.stops, hd])).1
  · intro he
    rw [complete_read_done op r hop hd he]
  · rintro ⟨he, hne⟩
    rw [complete_read_failed op r hop he hne]

/-- C3 at the `hello world` scenario with end-of-stream on the read that
completes the body. -/
theorem parser_completion_and_error_witness :
    ((run plain_handler hello_state 0 0 [hello_1]).1.complete_read hello_2_eos).2 =
      [.consume 5, .invoke .success (output_parser_type.release hello_2_eos.parser)] :=
  (parser_completion_and_error (run plain_handler hello_state 0 0 [hello_1]).1 hello_2_eos
    rfl rfl).2.1 (Or.inr rfl)

/-- C3 fails on the code: the read that completes the `hello world` body
resumes with a connection reset.  The parser reports completion, yet the
continuation is invoked with the reset and the empty message. -/
theorem parser_completion_not_authoritative :
    output_parser_type.is_done hello_2_reset.parser = true ∧
    (run plain_handler hello_state 0 0 [hello_1, hello_2_reset]).2 =
      [.post { id := 1 }, .expires_after 30, .async_read_some,
        .consume 6, .expires_after 30, .async_read_some,
        .consume 5, .invoke .connection_reset request.empty] ∧
    effect.invoke .success (output_parser_type.release hello_2_reset.parser) ∉
      (run plain_handler hello_state 0 0 [hello_1, hello_2_reset]).2 := by
  decide

/-- C4. Errors are terminal, verbatim and paired with an empty message.  A
read that resumes with an error other than end-of-stream makes the operation,
on that resumption, consume and then invoke the continuation with exactly that
error and the default constructed message, whatever the parser holds; the
coroutine is complete, results that follow are not delivered, and entering
`operator()` again makes no call. -/
theorem error_is_terminal (op : read_body_op P) (r : read_result P)
    (hop : op.coro = .reading) (he : r.ec.failed = true) (hne : r.ec ≠ .end_of_stream) :
    (op.complete_read r).2 =
      [.consume r.bytes_transferred, .invoke r.ec request.empty] ∧
    (op.complete_read r).1.coro = .complete ∧
    (∀ rs, op.feed (r :: rs) = op.feed [r]) ∧
    (op.feed [r]).2 = [.consume r.bytes_transferred, .invoke r.ec request.empty] ∧
    (∀ rs, ((op.complete_read r).1.feed rs).2 = []) ∧
    ∀ now ec n, ((op.complete_read r).1.operator now ec n).2 = [] := by
  have hc : (op.complete_read r).1.coro = .complete := by
    rw [complete_read_failed op r hop he hne]
  have hidle : ∀ rs, (op.complete_read r).1.feed rs = ((op.complete_read r).1, []) :=
    fun rs => feed_idle _ rs (by rw [hc]; decide)
  refine ⟨by rw [complete_read_failed op r hop he hne], hc, ?_, ?_, ?_, ?_⟩
  · intro rs
    rw [feed_cons_reading op r rs hop, feed_cons_reading op r [] hop, hidle, hidle]
  · rw [feed_cons_reading op r [] hop, hidle, complete_read_failed op r hop he hne]
    rfl
  · intro rs
    rw [hidle]
  · intro now ec n
    simp [read_body_op.operator, hc]

/-- C4 at its scenario: three octets are delivered, then the connection is
reset. -/
theorem error_is_terminal_witness :
    (run plain_handler close_state 0 0 [abc_read]).2 =
      [.post { id := 1 }, .expires_after 30, .async_read_some,
        .consume 3, .expires_after 30, .async_read_some] ∧
    ((run plain_handler close_state 0 0 [abc_read]).1.complete_read abc_reset).2 =
      [.consume 0, .invoke .connection_reset request.empty] :=
  ⟨by decide,
    (error_is_terminal (run plain_handler close_state 0 0 [abc_read]).1 abc_reset
      rfl rfl (by decide)).1⟩

/-- C5. Non-inline completion.  Whatever the stream, buffer, timer, parser
and handler are, the initiating call only posts the operation to its executor
and returns: the state is untouched and the coroutine is suspended at the
post.  The same holds for a first entry of `operator()` with any arguments. -/
theorem non_inline_completion (stream : async_read_stream) (buffer : List Char)
    (timer : steady_timer) (parser : P) (handler : completion_handler)
    (now : Nat) (ec : error_code) (n : Nat) :
    async_read_body stream buffer timer parser handler now =
      ({ coro := .posted, handler := handler,
         p := { stream := stream, buffer := buffer, timer := timer, parser := parser } },
        [.post (get_associated_executor handler stream.ex)]) ∧
    read_body_op.operator
        { coro := .initial, handler := handler,
          p := { stream := stream, buffer := buffer, timer := timer, parser := parser } }
        now ec n =
      async_read_body stream buffer timer parser handler now ∧
    invocations (async_read_body stream buffer timer parser handler now).2 = 0 ∧
    arms (async_read_body stream buffer timer parser handler now).2 = 0 ∧
    reads (async_read_body stream buffer timer parser handler now).2 = 0 ∧
    consumed (async_read_body stream buffer timer parser handler now).2 = 0 := by
  refine ⟨rfl, rfl, rfl, rfl, rfl, rfl⟩

theorem loop_keeps_buffer (op : read_body_op P) (now : Nat) (ec : error_code) :
    (op.loop now ec).1.p.buffer = op.p.buffer := by
  unfold read_body_op.loop
  split_ifs <;> rfl

theorem feed_consumed (rs : List (read_result P)) :
    ∀ op : read_body_op P, op.coro = .reading →
      consumed (op.feed rs).2 =
        ((rs.take (reads (op.feed rs).2 + 1)).map read_result.bytes_transferred).sum := by
  induction rs with
  | nil => intro op _; rfl
  | cons r rs ih =>
    intro op h
    rw [feed_cons_reading op r rs h]
    cases hs : r.stops
    · obtain ⟨hc, ht⟩ := complete_read_goes_on op r h hs
      have := ih _ hc
      simp only [consumed, reads] at this ⊢
      simp [ht, effect.consumed, effect.is_read, this]
    · obtain ⟨hc, ec, m, ht⟩ := complete_read_stops op r h hs
      rw [feed_idle _ rs (by rw [hc]; decide), ht]
      simp [consumed, reads, effect.consumed, effect.is_read]

/-- C6. Buffer consumption is unconditional.  On every resumption from a read,
whatever the error code and the parser, the first call of the step is
`consume(bytes_transferred)`; the calls that follow it in the step, among them
the invocation of the continuation, consume nothing.  The buffer left by the
step is the buffer the read left without its first `bytes_transferred` octets,
so exactly that many octets are gone when the buffer held that many.  Over a
run the octets consumed are the sum of `bytes_transferred` over the results of
the reads that resumed, which are the first `reads` results of the run. -/
theorem unconditional_consumption (op : read_body_op P) (r : read_result P)
    (hop : op.coro = .reading)
    (h : completion_handler) (p : state P) (t0 t1 : Nat) (rs : List (read_result P)) :
    (∃ rest, (op.complete_read r).2 = .consume r.bytes_transferred :: rest ∧
      ∀ e ∈ rest, e.consumed = 0) ∧
    (op.complete_read r).1.p.buffer = (op.p.buffer ++ r.arrived).drop r.bytes_transferred ∧
    (r.bytes_transferred ≤ (op.p.buffer ++ r.arrived).length →
      (op.complete_read r).1.p.buffer.length + r.bytes_transferred =
        (op.p.buffer ++ r.arrived).length) ∧
    consumed (run h p t0 t1 rs).2 =
      ((rs.take (reads (run h p t0 t1 rs).2)).map read_result.bytes_transferred).sum := by
  have hbuf : (op.complete_read r).1.p.buffer =
      (op.p.buffer ++ r.arrived).drop r.bytes_transferred := by
    rw [complete_read_eq op r hop]
    simp only [loop_keeps_buffer]
    rfl
  refine ⟨?_, hbuf, ?_, ?_⟩
  · cases hs : r.stops
    · obtain ⟨_, ht⟩ := complete_read_goes_on op r hop hs
      refine ⟨_, ht, ?_⟩
      intro e he
      simp only [List.mem_cons, List.mem_singleton, List.not_mem_nil, or_false] at he
      rcases he with he | he <;> rw [he] <;> rfl
    · obtain ⟨_, ec, m, ht⟩ := complete_read_stops op r hop hs
      refine ⟨_, ht, ?_⟩
      intro e he
      simp only [List.mem_singleton] at he
      rw [he]; rfl
  · intro hle
    rw [hbuf, List.length_drop]
    omega
  · cases hd : output_parser_type.is_done p.parser
    · rw [run_open h p t0 t1 rs hd]
      have := feed_consumed rs
        ({ coro := .reading, handler := h, p := { p with timer := { expiry := t1 + 30 } } } :
          read_body_op P) rfl
      simp only [consumed, reads] at this ⊢
      simp [effect.consumed, effect.is_read, this]
    · rw [run_done h p t0 t1 rs hd]
      simp [consumed, reads, effect.consumed, effect.is_read]

/-- C6 at a failing read: after `abc` a read resumes with a reset and reports
two octets, with four octets in the buffer. -/
theorem unconditional_consumption_witness :
    ((run plain_handler close_state 0 0 [abc_read]).1.complete_read
        { abc_reset with bytes_transferred := 2, arrived := ['w', 'x', 'y', 'z'] }).1.p.buffer =
      ['y', 'z'] ∧
    consumed (run plain_handler close_state 0 0
        [abc_read, { abc_reset with bytes_transferred := 2, arrived := ['w', 'x', 'y', 'z'] }]).2 =
      3 + 2 :=
  ⟨(unconditional_consumption (run plain_handler close_state 0 0 [abc_read]).1
      { abc_reset with bytes_transferred := 2, arrived := ['w', 'x', 'y', 'z'] } rfl
      plain_handler close_state 0 0 []).2.1,
    (unconditional_consumption (run plain_handler close_state 0 0 [abc_read]).1
      { abc_reset with bytes_transferred := 2, arrived := ['w', 'x', 'y', 'z'] } rfl
      plain_handler close_state 0 0
      [abc_read, { abc_reset with bytes_transferred := 2, arrived := ['w', 'x', 'y', 'z'] }]).2.2.2⟩

theorem getLast?_cons_of_some (a x : effect) (l : List effect)
    (h : l.getLast? = some x) : (a :: l).getLast? = some x := by
  cases l with
  | nil => simp at h
  | cons b l => rw [List.getLast?_cons_cons]; exact h

theorem feed_success (pre : List (read_result P)) (last : read_result P)
    (rest : List (read_result P))
    (hl : last.ec = .success) (hld : output_parser_type.is_done last.parser = true) :
    ∀ op : read_body_op P, op.coro = .reading →
      (∀ r ∈ pre, r.ec = .success ∧ output_parser_type.is_done r.parser = false) →
      reads (op.feed (pre ++ last :: rest)).2 = pre.length ∧
      arms (op.feed (pre ++ last :: rest)).2 = pre.length ∧
      (op.feed (pre ++ last :: rest)).2.getLast? =
        some (.invoke .success (output_parser_type.release last.parser)) := by
  induction pre with
  | nil =>
    intro op h _
    have hc : (op.complete_read last).1.coro = .complete := by
      rw [complete_read_done op last h hld (Or.inl (by rw [hl]; rfl))]
    rw [List.nil_append, feed_cons_reading op last rest h,
      feed_idle _ rest (by rw [hc]; decide),
      complete_read_done op last h hld (Or.inl (by rw [hl]; rfl))]
    simp [reads, arms, effect.is_read, effect.is_arm]
  | cons r pre ih =>
    intro op h hpre
    have hr := hpre r (by simp)
    have hs : r.stops = false := by simp [read_result.stops, hr.1, hr.2, error_code.failed]
    obtain ⟨hc, ht⟩ := complete_read_goes_on op r h hs
    obtain ⟨h1, h2, h3⟩ := ih _ hc (fun x hx => hpre x (by simp [hx]))
    rw [List.cons_append, feed_cons_reading op r _ h, ht]
    simp only [reads, arms] at h1 h2 ⊢
    refine ⟨?_, ?_, ?_⟩
    · simp [effect.is_read, h1]
    · simp [effect.is_arm, h2]
    · exact getLast?_cons_of_some _ _ _ (getLast?_cons_of_some _ _ _ (getLast?_cons_of_some _ _ _ h3))

/-- C8. Success path delivers the message of the parser.  When the parser is
not complete at the start, `k - 1` reads resume without error and leave it
incomplete, and the `k`-th read resumes without error and leaves it complete,
then exactly `k` reads are issued (and the timer is armed `k` times), the
continuation is invoked once, as the last call of the run, with no error and
the message `release()` gives for the parser the `k`-th read left. -/
theorem success_delivers_message (h : completion_handler) (p : state P) (t0 t1 : Nat)
    (pre : List (read_result P)) (last : read_result P) (rest : List (read_result P))
    (hp : output_parser_type.is_done p.parser = false)
    (hpre : ∀ r ∈ pre, r.ec = .success ∧ output_parser_type.is_done r.parser = false)
    (hl : last.ec = .success) (hld : output_parser_type.is_done last.parser = true) :
    reads (run h p t0 t1 (pre ++ last :: rest)).2 = pre.length + 1 ∧
    arms (run h p t0 t1 (pre ++ last :: rest)).2 = pre.length + 1 ∧
    invocations (run h p t0 t1 (pre ++ last :: rest)).2 = 1 ∧
    (run h p t0 t1 (pre ++ last :: rest)).2.getLast? =
      some (.invoke .success (output_parser_type.release last.parser)) := by
  have hone := (run_invoked_once h p t0 t1 (pre ++ last :: rest)
    ⟨last, by simp, by simp [read_result.stops, hld]⟩)
  refine ⟨?_, ?_, hone, ?_⟩
  all_goals
    rw [run_open h p t0 t1 _ hp]
    obtain ⟨h1, h2, h3⟩ := feed_success pre last rest hl hld
      ({ coro := .reading, handler := h, p := { p with timer := { expiry := t1 + 30 } } } :
        read_body_op P) rfl hpre
    simp only [reads, arms] at h1 h2 ⊢
  · simp [effect.is_read, h1]
  · simp [effect.is_arm, h2]
  · exact getLast?_cons_of_some _ _ _ (getLast?_cons_of_some _ _ _ (getLast?_cons_of_some _ _ _ h3))

/-- C8 at its scenario: `Content-Length: 11`, the body `hello world` arrives
in chunks of six and five octets. -/
theorem success_delivers_message_witness :
    reads (run plain_handler hello_state 0 0 [hello_1, hello_2]).2 = 2 ∧
    (run plain_handler hello_state 0 0 [hello_1, hello_2]).2.getLast? =
      some (.invoke .success
        { fields := [("Content-Length", "11")],
          body := ['h', 'e', 'l', 'l', 'o', ' ', 'w', 'o', 'r', 'l', 'd'] }) :=
  ⟨(success_delivers_message plain_handler hello_state 0 0 [hello_1] hello_2 [] rfl
      (by decide) rfl rfl).1,
    (success_delivers_message plain_handler hello_state 0 0 [hello_1] hello_2 [] rfl
      (by decide) rfl rfl).2.2.2⟩

theorem feed_arm_then_read (rs : List (read_result P)) :
    ∀ op : read_body_op P, op.coro = .reading →
      arm_then_read (op.feed rs).2 = true ∧ arms (op.feed rs).2 = reads (op.feed rs).2 := by
  induction rs with
  | nil => intro op _; exact ⟨rfl, rfl⟩
  | cons r rs ih =>
    intro op h
    rw [feed_cons_reading op r rs h]
    cases hs : r.stops
    · obtain ⟨hc, ht⟩ := complete_read_goes_on op r h hs
      obtain ⟨h1, h2⟩ := ih _ hc
      simp only [arms, reads] at h2 ⊢
      rw [ht]
      exact ⟨by simpa [arm_then_read] using h1, by simp [effect.is_arm, effect.is_read, h2]⟩
    · obtain ⟨hc, ec, m, ht⟩ := complete_read_stops op r h hs
      rw [feed_idle _ rs (by rw [hc]; decide), ht]
      exact ⟨by simp [arm_then_read], by simp [arms, reads, effect.is_arm, effect.is_read]⟩

theorem drive_cons_reading (op : read_body_op parser_adapter) (issued : Nat) (d : delivery)
    (ds : List delivery) (h : op.coro = .reading) :
    op.drive issued (d :: ds) =
      (((op.complete_read
            (transport_read op.p.timer issued op.p.parser op.p.buffer d)).1.drive
          (transport_read op.p.timer issued op.p.parser op.p.buffer d).now ds).1,
        (op.complete_read (transport_read op.p.timer issued op.p.parser op.p.buffer d)).2 ++
          ((op.complete_read
              (transport_read op.p.timer issued op.p.parser op.p.buffer d)).1.drive
            (transport_read op.p.timer issued op.p.parser op.p.buffer d).now ds).2) := by
  simp [read_body_op.drive, h]

theorem drive_idle (op : read_body_op parser_adapter) (issued : Nat) (ds : List delivery)
    (h : op.coro ≠ .reading) : op.drive issued ds = (op, []) := by
  cases ds <;> simp [read_body_op.drive, h]

theorem transport_read_in_time (timer : steady_timer) (issued : Nat) (p : parser_adapter)
    (buffer octets : List Char) (ht : timer.expiry = issued + 30) :
    transport_read timer issued p buffer { time := issued + 29, octets := octets } =
      read_some (issued + 29) p buffer octets := by
  simp [transport_read, ht]

theorem transport_read_late (timer : steady_timer) (issued : Nat) (p : parser_adapter)
    (buffer octets : List Char) (ht : timer.expiry = issued + 30) :
    transport_read timer issued p buffer { time := issued + 31, octets := octets } =
      { now := issued + 30, ec := .timed_out, bytes_transferred := 0, arrived := [],
        parser := p } := by
  simp [transport_read, ht]

theorem drive_steady (n : Nat) :
    ∀ (op : read_body_op parser_adapter) (issued : Nat), op.coro = .reading →
      op.p.timer.expiry = issued + 30 →
      ∀ m, effect.invoke .timed_out m ∉ (op.drive issued (steady_peer issued n)).2 := by
  induction n with
  | zero => intro op issued _ _ m; simp [steady_peer, read_body_op.drive]
  | succ n ih =>
    intro op issued h ht m
    rw [steady_peer, drive_cons_reading op issued _ _ h, transport_read_in_time _ _ _ _ _ ht]
    have hnow : (read_some (issued + 29) op.p.parser op.p.buffer ['x']).now = issued + 29 := rfl
    have hec : (read_some (issued + 29) op.p.parser op.p.buffer ['x']).ec.failed = false := rfl
    rw [hnow]
    cases hd : output_parser_type.is_done
        (read_some (issued + 29) op.p.parser op.p.buffer ['x']).parser
    · rw [complete_read_continue op _ h hd hec]
      have := ih
        { op.after_read (read_some (issued + 29) op.p.parser op.p.buffer ['x']) with
            coro := .reading,
            p := { (op.after_read
                      (read_some (issued + 29) op.p.parser op.p.buffer ['x'])).p with
                    timer := { expiry := issued + 29 + 30 } } }
        (issued + 29) rfl rfl m
      simpa [hnow] using this
    · rw [complete_read_done op _ h hd (Or.inl hec), drive_idle _ _ _ (by simp)]
      simp

theorem put_close_delimited (p : parser_adapter) (octets : List Char)
    (hcl : p.content_length = none) :
    (p.put octets).1.content_length = none ∧
      output_parser_type.is_done (p.put octets).1 = false := by
  simp [parser_adapter.put, hcl, output_parser_type.is_done, parser_adapter.is_done]

theorem drive_steady_close_delimited (n : Nat) :
    ∀ (op : read_body_op parser_adapter) (issued : Nat), op.coro = .reading →
      op.p.timer.expiry = issued + 30 → op.p.parser.content_length = none →
      reads (op.drive issued (steady_peer issued n)).2 = n ∧
        invocations (op.drive issued (steady_peer issued n)).2 = 0 := by
  induction n with
  | zero => intro op issued _ _ _; simp [steady_peer, read_body_op.drive, reads, invocations]
  | succ n ih =>
    intro op issued h ht hcl
    rw [steady_peer, drive_cons_reading op issued _ _ h, transport_read_in_time _ _ _ _ _ ht]
    have hnow : (read_some (issued + 29) op.p.parser op.p.buffer ['x']).now = issued + 29 := rfl
    have hec : (read_some (issued + 29) op.p.parser op.p.buffer ['x']).ec.failed = false := rfl
    obtain ⟨hcl1, hd⟩ := put_close_delimited op.p.parser (op.p.buffer ++ ['x']) hcl
    have hd1 : output_parser_type.is_done
        (read_some (issued + 29) op.p.parser op.p.buffer ['x']).parser = false := hd
    rw [hnow, complete_read_continue op _ h hd1 hec]
    obtain ⟨h1, h2⟩ := ih
      { op.after_read (read_some (issued + 29) op.p.parser op.p.buffer ['x']) with
          coro := .reading,
          p := { (op.after_read
                    (read_some (issued + 29) op.p.parser op.p.buffer ['x'])).p with
                  timer := { expiry := issued + 29 + 30 } } }
      (issued + 29) rfl rfl hcl1
    simp only [reads, invocations, hnow, List.countP_append] at h1 h2 ⊢
    rw [h1, h2]
    constructor
    · simp [List.countP_cons, effect.is_read]
      omega
    · simp [List.countP_cons, effect.is_invoke]

theorem drive_silent (op : read_body_op parser_adapter) (issued : Nat) (octets : List Char)
    (h : op.coro = .reading) (ht : op.p.timer.expiry = issued + 30) :
    (op.drive issued (silent_peer issued octets)).2 =
      [.consume 0, .invoke .timed_out request.empty] := by
  have key := complete_read_failed op
    { now := issued + 30, ec := .timed_out, bytes_transferred := 0, arrived := [],
      parser := op.p.parser } h rfl (fun hne => by cases hne)
  rw [silent_peer, drive_cons_reading op issued _ _ h, transport_read_late _ _ _ _ _ ht,
    key, drive_idle _ _ _ (by simp)]
  rfl

theorem run_against_open (h : completion_handler) (p : state parser_adapter) (t0 : Nat)
    (ds : List delivery) (hd : output_parser_type.is_done p.parser = false) :
    run_against h p t0 ds =
      ((read_body_op.drive
          { coro := .reading, handler := h, p := { p with timer := { expiry := t0 + 30 } } }
          t0 ds).1,
        .post (get_associated_executor h p.stream.ex) :: .expires_after 30 ::
          .async_read_some ::
          (read_body_op.drive
            { coro := .reading, handler := h, p := { p with timer := { expiry := t0 + 30 } } }
            t0 ds).2) := by
  simp [run_against, async_read_body, read_body_op.operator, read_body_op.get_executor,
    read_body_op.loop, hd, error_code.failed, steady_timer.expires_after]

theorem run_against_done (h : completion_handler) (p : state parser_adapter) (t0 : Nat)
    (ds : List delivery) (hd : output_parser_type.is_done p.parser = true) :
    run_against h p t0 ds =
      ({ coro := .complete, handler := h, p := p },
        [.post (get_associated_executor h p.stream.ex),
          .invoke .success (output_parser_type.release p.parser)]) := by
  have hidle : ∀ op : read_body_op parser_adapter, op.coro = .complete →
      op.drive t0 ds = (op, []) :=
    fun op hc => drive_idle op t0 ds (by rw [hc]; decide)
  simp [run_against, async_read_body, read_body_op.operator, read_body_op.get_executor,
    read_body_op.loop, hd, error_code.failed, hidle]

/-- C7. Deadline re-arm per iteration.  In every run each arming of the timer
is `expires_after(30)` directly followed by a partial read and each partial
read directly follows an arming, so there are as many armings as reads.  A
resumption that issues a read leaves the timer expiring 30 time units after
the time of that resumption; a resumption that does not arm leaves the timer
as it was.  Against the transport that fails a pending read with a timeout once
the expiry has passed before octets arrive: with a peer that delivers one
octet every 29 time units the continuation is never invoked with a timeout,
however many deliveries are made (for a close-delimited body all `n`
deliveries are read, `n + 1` reads are issued and nothing is invoked, although
more than 30 time units pass); with a peer silent for 31 time units the
first read times out and the continuation is invoked with the timeout and the
default constructed message. -/
theorem deadline_rearm (h : completion_handler) (p : state P) (t0 t1 : Nat)
    (rs : List (read_result P)) (op : read_body_op P) (now : Nat) (ec : error_code)
    (bytes : Nat) (hb : completion_handler) (pb : state parser_adapter) (start n : Nat)
    (octets : List Char) :
    arm_then_read (run h p t0 t1 rs).2 = true ∧
    arms (run h p t0 t1 rs).2 = reads (run h p t0 t1 rs).2 ∧
    (effect.async_read_some ∈ (op.operator now ec bytes).2 →
      (op.operator now ec bytes).1.p.timer.expiry = now + 30) ∧
    (arms (op.operator now ec bytes).2 = 0 →
      (op.operator now ec bytes).1.p.timer = op.p.timer) ∧
    (∀ m, effect.invoke .timed_out m ∉ (run_against hb pb start (steady_peer start n)).2) ∧
    (pb.parser.content_length = none →
      reads (run_against hb pb start (steady_peer start n)).2 = n + 1 ∧
        invocations (run_against hb pb start (steady_peer start n)).2 = 0) ∧
    (output_parser_type.is_done pb.parser = false →
      (run_against hb pb start (silent_peer start octets)).2 =
        [.post (get_associated_executor hb pb.stream.ex), .expires_after 30,
          .async_read_some, .consume 0, .invoke .timed_out request.empty]) := by
  refine ⟨?_, ?_, ?_, ?_, ?_, ?_, ?_⟩
  · cases hd : output_parser_type.is_done p.parser
    · rw [run_open h p t0 t1 rs hd]
      simpa [arm_then_read] using (feed_arm_then_read rs _ rfl).1
    · rw [run_done h p t0 t1 rs hd]
      simp [arm_then_read]
  · cases hd : output_parser_type.is_done p.parser
    · rw [run_open h p t0 t1 rs hd]
      have := (feed_arm_then_read rs
        ({ coro := .reading, handler := h, p := { p with timer := { expiry := t1 + 30 } } } :
          read_body_op P) rfl).2
      simp only [arms, reads] at this ⊢
      simp [effect.is_arm, effect.is_read, this]
    · rw [run_done h p t0 t1 rs hd]
      simp [arms, reads, effect.is_arm, effect.is_read]
  · unfold read_body_op.operator read_body_op.loop
    cases op.coro <;> simp only [] <;> (try split_ifs) <;>
      simp [steady_timer.expires_after]
  · unfold read_body_op.operator read_body_op.loop
    cases op.coro <;> simp only [] <;> (try split_ifs) <;>
      simp [arms, effect.is_arm]
  · intro m
    cases hd : output_parser_type.is_done pb.parser
    · rw [run_against_open hb pb start _ hd]
      have := drive_steady n
        { coro := .reading, handler := hb, p := { pb with timer := { expiry := start + 30 } } }
        start rfl rfl m
      simpa using this
    · rw [run_against_done hb pb start _ hd]
      simp
  · intro hcl
    have hd : output_parser_type.is_done pb.parser = false := by
      simp [output_parser_type.is_done, parser_adapter.is_done, hcl]
    rw [run_against_open hb pb start _ hd]
    obtain ⟨h1, h2⟩ := drive_steady_close_delimited n
      { coro := .reading, handler := hb, p := { pb with timer := { expiry := start + 30 } } }
      start rfl rfl hcl
    simp only [reads, invocations] at h1 h2 ⊢
    exact ⟨by simp [effect.is_read, h1], by simp [effect.is_invoke, h2]⟩
  · intro hd
    rw [run_against_open hb pb start _ hd, drive_silent _ _ octets rfl rfl]

/-- C7 at a close-delimited body: forty deliveries 29 time units apart give
forty-one reads and no invocation; silence for 31 time units gives a timeout. -/
theorem deadline_rearm_witness :
    (run_against plain_handler close_state 5 (silent_peer 5 ['a'])).2 =
      [.post { id := 1 }, .expires_after 30, .async_read_some, .consume 0,
        .invoke .timed_out request.empty] ∧
    reads (run_against plain_handler close_state 5 (steady_peer 5 40)).2 = 41 ∧
    invocations (run_against plain_handler close_state 5 (steady_peer 5 40)).2 = 0 :=
  ⟨(deadline_rearm plain_handler close_state 0 0 [] (run plain_handler close_state 0 0 []).1
      0 .success 0 plain_handler close_state 5 40 ['a']).2.2.2.2.2.2 rfl,
    ((deadline_rearm plain_handler close_state 0 0 [] (run plain_handler close_state 0 0 []).1
      0 .success 0 plain_handler close_state 5 40 ['a']).2.2.2.2.2.1 rfl).1,
    ((deadline_rearm plain_handler close_state 0 0 [] (run plain_handler close_state 0 0 []).1
      0 .success 0 plain_handler close_state 5 40 ['a']).2.2.2.2.2.1 rfl).2⟩

/-- C10. Already-complete parser short-circuit.  When the parser reports
completion at the posted resumption, the run is the post followed by the
invocation of the continuation with no error and the released message: no
read, no arming of the timer, nothing consumed, buffer and timer as they
were. -/
theorem complete_parser_short_circuit (h : completion_handler) (p : state P)
    (t0 t1 : Nat) (rs : List (read_result P))
    (hd : output_parser_type.is_done p.parser = true) :
    (run h p t0 t1 rs).2 =
      [.post (get_associated_executor h p.stream.ex),
        .invoke .success (output_parser_type.release p.parser)] ∧
    reads (run h p t0 t1 rs).2 = 0 ∧
    arms (run h p t0 t1 rs).2 = 0 ∧
    consumed (run h p t0 t1 rs).2 = 0 ∧
    (run h p t0 t1 rs).1.p.buffer = p.buffer ∧
    (run h p t0 t1 rs).1.p.timer = p.timer ∧
    (run h p t0 t1 rs).1.coro = .complete := by
  rw [run_done h p t0 t1 rs hd]
  exact ⟨rfl, rfl, rfl, rfl, rfl, rfl, rfl⟩

/-- C10 at a request without a body, with read results that are never
delivered. -/
theorem complete_parser_short_circuit_witness :
    (run strand_handler empty_state 0 3 [abc_read, abc_reset]).2 =
      [.post { id := 9 }, .invoke .success { fields := [("Content-Length", "0")], body := [] }] ∧
    (run strand_handler empty_state 0 3 [abc_read, abc_reset]).1.p.buffer = ['G', 'E', 'T'] :=
  ⟨(complete_parser_short_circuit strand_handler empty_state 0 3 [abc_read, abc_reset] rfl).1,
    (complete_parser_short_circuit strand_handler empty_state 0 3 [abc_read, abc_reset] rfl).2.2.2.2.1⟩

end claims

/-- C9. Executor selection.  `get_executor` returns the executor associated
with the handler whenever it has one, and the executor of the stream when it
has none.  It follows the stream, whatever stream the operation is built on,
exactly when the handler has none, and it is the same for operations that
differ in coroutine state, buffer, timer or parser only. -/
theorem executor_selection {P : Type} (op : read_body_op P) :
    (∀ e, op.handler.associated = some e → op.get_executor = e) ∧
    (op.handler.associated = none → op.get_executor = op.p.stream.ex) ∧
    ((∀ s : async_read_stream,
        read_body_op.get_executor { op with p := { op.p with stream := s } } = s.ex) ↔
      op.handler.associated = none) ∧
    (∀ (c : coroutine) (buffer : List Char) (timer : steady_timer) (parser : P),
      read_body_op.get_executor
          { coro := c, handler := op.handler,
            p := { stream := op.p.stream, buffer := buffer, timer := timer,
                   parser := parser } } =
        op.get_executor) := by
  refine ⟨?_, ?_, ?_, ?_⟩
  · intro e he
    simp [read_body_op.get_executor, get_associated_executor, he]
  · intro he
    simp [read_body_op.get_executor, get_associated_executor, he]
  · constructor
    · intro hall
      cases ha : op.handler.associated with
      | none => rfl
      | some e =>
        have := hall { ex := { id := e.id + 1 } }
        simp only [read_body_op.get_executor, get_associated_executor, ha] at this
        have hid := congrArg executor.id this
        simp at hid
    · intro he s
      simp [read_body_op.get_executor, get_associated_executor, he]
  · intro c buffer timer parser
    rfl

/-- C9 at a handler bound to a strand and at a handler without executor. -/
theorem executor_selection_witness :
    read_body_op.get_executor
        ({ coro := .initial, handler := strand_handler, p := hello_state } :
          read_body_op parser_adapter) = { id := 9 } ∧
    read_body_op.get_executor
        ({ coro := .initial, handler := plain_handler, p := hello_state } :
          read_body_op parser_adapter) = { id := 1 } :=
  ⟨(executor_selection _).1 _ rfl, (executor_selection _).2.1 rfl⟩

end foxy
